import Mathlib

/-!
Verification of the snippet-manager backend (Express + SQLite).

The development shallowly embeds the data layer of the repository:

* `backend/config/database.js` — the live schema created by
  `initializeDatabase` (tables `snippets`, `tags`, `snippet_tags`) and the
  per-call `createConnection` (which never issues `PRAGMA foreign_keys = ON`,
  so the connections used by the model layer run with SQLite's default,
  foreign-key enforcement OFF).
* `backend/models/snippetModel.js` — `getAllSnippets`, `createSnippet`,
  `deleteSnippet`.
* `backend/controllers/snippetController.js` — the request-level validation
  around those model calls.

JavaScript/SQL strings are lists of characters; machine-assigned row ids and
timestamps are naturals; SQLite's dynamic `LIKE` matching and JavaScript's
string-to-number coercion are modelled for the fragments the code exercises.
-/

namespace CSE499

/-- Strings of the JavaScript/SQL layer, modelled as lists of characters. -/
abbrev Str : Type := List Char

/-- ASCII lower-casing as applied by SQLite's `LIKE` (folds `A`-`Z` only). -/
def lowAscii (c : Char) : Char :=
  if 'A' ≤ c ∧ c ≤ 'Z' then Char.ofNat (c.toNat + 32) else c

/-- SQLite `LIKE` matcher; first argument is the pattern, second the string.
`%` matches any (possibly empty) sequence, `_` matches exactly one character,
any other pattern character matches case-insensitively (ASCII fold). The `%`
case is phrased as "some suffix of the string matches the rest of the
pattern", which is the standard denotation of the wildcard. -/
def likeMatch : Str → Str → Bool
  | [], s => s.isEmpty
  | p :: ps, s =>
    if p = '%' then s.tails.any (fun t => likeMatch ps t)
    else
      match s with
      | [] => false
      | c :: s2 => (p == '_' || lowAscii p == lowAscii c) && likeMatch ps s2

/-- The pattern `%searchQuery%` built by `getAllSnippets` for each `LIKE`. -/
def likeParam (q : Str) : Str := '%' :: (q ++ ['%'])

/-- Spec-side notion: `q` is a case-insensitive prefix of `s` (ASCII fold). -/
def isPrefixOfCI : Str → Str → Bool
  | [], _ => true
  | _ :: _, [] => false
  | a :: as, b :: bs => (lowAscii a == lowAscii b) && isPrefixOfCI as bs

/-- Spec-side notion used by the search claims: the text `q` appears in `s`
as a case-insensitive substring (some suffix of `s` starts with `q`). -/
def containsCI (s q : Str) : Bool := s.tails.any (fun t => isPrefixOfCI q t)

/-- A search text free of the `LIKE` wildcards `%` and `_`. -/
def wildcardFree (q : Str) : Bool := q.all (fun c => !(c == '%' || c == '_'))

/-- A row of the `snippets` table. The live schema
(`CREATE TABLE IF NOT EXISTS snippets` in `database.js`) has no CHECK
constraints; `created_at DATETIME DEFAULT CURRENT_TIMESTAMP` is modelled as a
natural drawn from the database clock at insert time. -/
structure SnippetRow where
  id : Nat
  title : Str
  code : Str
  language : Str
  created_at : Nat
deriving DecidableEq, Repr

/-- A row of the `tags` table (`name TEXT UNIQUE NOT NULL`). -/
structure TagRow where
  id : Nat
  name : Str
deriving DecidableEq, Repr

/-- A row of the junction table `snippet_tags`
(`PRIMARY KEY (snippet_id, tag_id)`). -/
structure TagLink where
  snippet_id : Nat
  tag_id : Nat
deriving DecidableEq, Repr

/-- The persisted database state, together with the AUTOINCREMENT counters
and the timestamp source. -/
structure DB where
  snippets : List SnippetRow
  tags : List TagRow
  snippet_tags : List TagLink
  nextSnippetId : Nat
  nextTagId : Nat
  clock : Nat
deriving DecidableEq, Repr

/-- The empty database produced by `initializeDatabase` on a fresh file. -/
def emptyDB : DB :=
  { snippets := [], tags := [], snippet_tags := [],
    nextSnippetId := 1, nextTagId := 1, clock := 0 }

/-- Per-connection SQLite state relevant to the model layer: whether
`PRAGMA foreign_keys` is ON for this connection. -/
structure Connection where
  foreignKeys : Bool
deriving DecidableEq, Repr

/-- `createConnection` (`database.js` lines 17-25) opens a fresh connection
and never issues `PRAGMA foreign_keys = ON`; SQLite's per-connection default
is OFF (`initializeDatabase` enables the pragma only on its own, immediately
closed, connection). -/
def createConnection : Connection := { foreignKeys := false }

/-- SQLite errors the modelled statements can raise.
`constraintPrimaryKey` is the SQLITE_CONSTRAINT error from inserting a
duplicate `(snippet_id, tag_id)` pair; `noSuchRow` stands for the
(unreachable) case where the tag lookup after `INSERT OR IGNORE` finds no
row. -/
inductive SqlError
  | constraintPrimaryKey
  | noSuchRow
deriving DecidableEq, Repr

/-- ASCII whitespace: the characters trimmed both by JavaScript's
string-to-number coercion and by SQLite's text-to-numeric conversion. -/
def isWS (c : Char) : Bool :=
  c == ' ' || c == '\t' || c == '\n' || c == '\r' || c == '\x0b' || c == '\x0c'

/-- Trim leading and trailing whitespace. -/
def trimWS (s : Str) : Str :=
  ((s.dropWhile isWS).reverse.dropWhile isWS).reverse

/-- The value of a string of decimal digits. -/
def digitsToNat (ds : Str) : Nat :=
  ds.foldl (fun a c => a * 10 + (c.toNat - 48)) 0

/-- Hexadecimal digit test, for the `0x` radix form of `Number(string)`. -/
def isHexDigit (c : Char) : Bool :=
  c.isDigit || ('a' ≤ c && c ≤ 'f') || ('A' ≤ c && c ≤ 'F')

/-- Value of one hexadecimal digit. -/
def hexDigitVal (c : Char) : Nat :=
  if c.isDigit then c.toNat - 48
  else if 'a' ≤ c && c ≤ 'f' then c.toNat - 87
  else c.toNat - 55

/-- The value of a digit string in the given base. -/
def radixToNat (base : Nat) (dv : Char → Nat) (ds : Str) : Nat :=
  ds.foldl (fun a c => a * base + dv c) 0

/-- An exact decimal number `num / 10 ^ scale`. Every value of the numeric
string grammars below has this form; the engines actually compute with
binary doubles, which agree with the exact value on equality against the
integer row ids in scope. -/
structure DecNum where
  num : Int
  scale : Nat
deriving DecidableEq, Repr

/-- Whether the decimal number equals a (non-negative integer) row id. -/
def decNumEqInt (d : DecNum) (n : Nat) : Bool :=
  d.num == (n : Int) * ((10 : Int) ^ d.scale)

/-- Negation of a decimal number. -/
def decNumNeg (d : DecNum) : DecNum := { d with num := -d.num }

/-- Decimal mantissa — `digits [. digits?]` or `. digits` — returning its
value and the unconsumed rest of the string. -/
def parseDecMantissa (r : Str) : Option (DecNum × Str) :=
  let ip := r.takeWhile (fun c => c.isDigit)
  let r1 := r.drop ip.length
  match r1 with
  | '.' :: fr =>
    let fd := fr.takeWhile (fun c => c.isDigit)
    let r2 := fr.drop fd.length
    if ip.isEmpty && fd.isEmpty then none
    else some ({ num := (digitsToNat (ip ++ fd) : Int), scale := fd.length }, r2)
  | _ =>
    if ip.isEmpty then none
    else some ({ num := (digitsToNat ip : Int), scale := 0 }, r1)

/-- Exponent tail after `e`/`E`: an optional sign then digits, which must
consume the whole rest of the string. -/
def parseExpTail (m : DecNum) (r : Str) : Option DecNum :=
  let signed : Bool × Str :=
    match r with
    | '-' :: r2 => (true, r2)
    | '+' :: r2 => (false, r2)
    | r2 => (false, r2)
  let ds := signed.2.takeWhile (fun c => c.isDigit)
  if ds.isEmpty || !(signed.2.drop ds.length).isEmpty then none
  else if signed.1 then some { m with scale := m.scale + digitsToNat ds }
  else some { m with num := m.num * ((10 : Int) ^ digitsToNat ds) }

/-- An unsigned decimal literal with optional fraction and exponent,
consuming the whole string. This grammar is shared by JavaScript's decimal
branch and SQLite's well-formed-literal test. -/
def parseUnsignedDec (r : Str) : Option DecNum :=
  match parseDecMantissa r with
  | none => none
  | some (m, rest) =>
    match rest with
    | [] => some m
    | e :: rest2 => if e == 'e' || e == 'E' then parseExpTail m rest2 else none

/-- The value of a JavaScript `Number(string)` coercion. -/
inductive JsNumber
  | nan
  | posInf
  | negInf
  | finite (v : DecNum)
deriving DecidableEq, Repr

/-- The literal `Infinity`. -/
def infinityLit : Str := ['I', 'n', 'f', 'i', 'n', 'i', 't', 'y']

/-- The `StrDecimalLiteral` branch of `Number(string)`: an optional sign,
then `Infinity` or an unsigned decimal with optional fraction/exponent. -/
def jsDecimal (t : Str) : JsNumber :=
  let signed : Bool × Str :=
    match t with
    | '-' :: r => (true, r)
    | '+' :: r => (false, r)
    | r => (false, r)
  if signed.2 = infinityLit then
    if signed.1 then JsNumber.negInf else JsNumber.posInf
  else
    match parseUnsignedDec signed.2 with
    | some v => JsNumber.finite (if signed.1 then decNumNeg v else v)
    | none => JsNumber.nan

/-- JavaScript `Number(string)` (the `StringNumericLiteral` grammar, ASCII
whitespace): trim; the empty string is 0; `0x`/`0o`/`0b` radix forms carry
no sign; otherwise the signed decimal / `Infinity` branch; anything else is
NaN. `isNaN('1e3')`, `isNaN(' 5')` and `isNaN('0x10')` are all false here,
as in JavaScript. -/
def jsToNumber (s : Str) : JsNumber :=
  let t := trimWS s
  if t.isEmpty then JsNumber.finite { num := 0, scale := 0 }
  else
    match t with
    | '0' :: c :: rest =>
      if c == 'x' || c == 'X' then
        if !rest.isEmpty && rest.all isHexDigit then
          JsNumber.finite { num := (radixToNat 16 hexDigitVal rest : Int), scale := 0 }
        else JsNumber.nan
      else if c == 'o' || c == 'O' then
        if !rest.isEmpty && rest.all (fun d => '0' ≤ d && d ≤ '7') then
          JsNumber.finite { num := (radixToNat 8 hexDigitVal rest : Int), scale := 0 }
        else JsNumber.nan
      else if c == 'b' || c == 'B' then
        if !rest.isEmpty && rest.all (fun d => d == '0' || d == '1') then
          JsNumber.finite { num := (radixToNat 2 hexDigitVal rest : Int), scale := 0 }
        else JsNumber.nan
      else jsDecimal t
    | _ => jsDecimal t

/-- JavaScript `isNaN(s)` for a request-parameter string. -/
def jsIsNaN (s : Str) : Bool :=
  match jsToNumber s with
  | JsNumber.nan => true
  | _ => false

/-- SQLite's text-to-numeric affinity conversion, applied to a TEXT operand
compared against an INTEGER column: it succeeds exactly on a well-formed
signed decimal literal with optional fraction and exponent, surrounded by
optional whitespace. Hex forms, `Infinity` and the empty string are not
well-formed, so such text stays TEXT and compares unequal to every id. -/
def sqliteTextToNum (s : Str) : Option DecNum :=
  let t := trimWS s
  let signed : Bool × Str :=
    match t with
    | '-' :: r => (true, r)
    | '+' :: r => (false, r)
    | r => (false, r)
  match parseUnsignedDec signed.2 with
  | some v => some (if signed.1 then decNumNeg v else v)
  | none => none

/-- The comparison `id = ?` with `?` bound to the raw request-parameter
text: true when the text converts to a number equal to the id. -/
def sqlTextMatchesInt (s : Str) (n : Nat) : Bool :=
  match sqliteTextToNum s with
  | some d => decNumEqInt d n
  | none => false

/-- `INSERT INTO snippets (title, code, language) VALUES (?, ?, ?)`:
assigns the next AUTOINCREMENT id and the current timestamp, returns
`this.lastID`. The live table has NOT NULL but no CHECK constraints, so any
bound text (empty included) is accepted. -/
def sqlInsertSnippet (db : DB) (title code language : Str) : DB × Nat :=
  ({ db with
      snippets := db.snippets ++
        [{ id := db.nextSnippetId, title := title, code := code,
           language := language, created_at := db.clock }],
      nextSnippetId := db.nextSnippetId + 1,
      clock := db.clock + 1 },
   db.nextSnippetId)

/-- `INSERT OR IGNORE INTO tags (name) VALUES (?)`: a no-op when a row with
that (UNIQUE) name exists, otherwise appends a fresh row. -/
def sqlInsertOrIgnoreTag (db : DB) (name : Str) : DB :=
  if db.tags.any (fun t => t.name == name) then db
  else
    { db with
        tags := db.tags ++ [{ id := db.nextTagId, name := name }],
        nextTagId := db.nextTagId + 1 }

/-- `SELECT id FROM tags WHERE name = ?`: first matching row, if any. -/
def sqlSelectTagId (db : DB) (name : Str) : Option Nat :=
  (db.tags.find? (fun t => t.name == name)).map (fun t => t.id)

/-- `INSERT INTO snippet_tags (snippet_id, tag_id) VALUES (?, ?)`: fails with
a constraint error when the composite primary key pair already exists.
Foreign keys are not checked (the pragma is OFF on model connections). -/
def sqlInsertLink (db : DB) (sid tid : Nat) : Except SqlError DB :=
  if db.snippet_tags.any (fun l => l.snippet_id == sid && l.tag_id == tid) then
    Except.error SqlError.constraintPrimaryKey
  else
    Except.ok
      { db with snippet_tags := db.snippet_tags ++ [{ snippet_id := sid, tag_id := tid }] }

/-- `DELETE FROM snippets WHERE id = ?` on the given connection, with `?`
bound to the raw request-parameter string (the driver binds it as TEXT;
SQLite's numeric affinity decides which rows it equals). Rows of
`snippet_tags` are removed by `ON DELETE CASCADE` only when the connection
enforces foreign keys. Returns the new state and `this.changes`. -/
def sqlDeleteSnippet (conn : Connection) (db : DB) (idText : Str) : DB × Nat :=
  let removed := db.snippets.filter (fun s => sqlTextMatchesInt idText s.id)
  let kept := db.snippets.filter (fun s => !sqlTextMatchesInt idText s.id)
  let links :=
    if conn.foreignKeys then
      db.snippet_tags.filter (fun l => !(removed.any (fun s => s.id == l.snippet_id)))
    else db.snippet_tags
  ({ db with snippets := kept, snippet_tags := links }, removed.length)

/-- A record returned by the list query (`getAllSnippets`): the snippet
columns plus the `tags` array parsed from the `GROUP_CONCAT` string. -/
structure SnippetRecord where
  id : Nat
  title : Str
  code : Str
  language : Str
  created_at : Nat
  tags : List Str
deriving DecidableEq, Repr

/-- The tag-name column of one joined row for a given snippet:
`LEFT JOIN snippet_tags st ON s.id = st.snippet_id LEFT JOIN tags t ON
st.tag_id = t.id`. A snippet with no junction rows contributes a single row
with NULL `t.name`; a junction row whose tag id resolves to no tag row also
carries NULL. -/
def joinTagNames (db : DB) (sid : Nat) : List (Option Str) :=
  let links := db.snippet_tags.filter (fun l => l.snippet_id == sid)
  if links.isEmpty then [none]
  else links.map (fun l => (db.tags.find? (fun t => t.id == l.tag_id)).map (fun t => t.name))

/-- The first three disjuncts of the WHERE clause:
`s.title LIKE ? OR s.code LIKE ? OR s.language LIKE ?`. -/
def fieldLike (q : Str) (s : SnippetRow) : Bool :=
  likeMatch (likeParam q) s.title || likeMatch (likeParam q) s.code ||
    likeMatch (likeParam q) s.language

/-- The full WHERE clause applied to one joined row (`... OR t.name LIKE ?`;
a NULL tag name never satisfies `LIKE`). -/
def rowPasses (q : Str) (s : SnippetRow) (tname : Option Str) : Bool :=
  fieldLike q s ||
    (match tname with
     | none => false
     | some n => likeMatch (likeParam q) n)

/-- Comma-separated concatenation, as `GROUP_CONCAT` builds it. -/
def joinComma : List Str → Str
  | [] => []
  | [n] => n
  | n :: rest => n ++ ',' :: joinComma rest

/-- `GROUP_CONCAT(t.name)` over the surviving rows of one group: NULLs are
skipped; the result is NULL when no non-NULL name remains, otherwise the
comma-separated concatenation. -/
def groupConcatNames (names : List (Option Str)) : Option Str :=
  let present := names.filterMap id
  if present.isEmpty then none else some (joinComma present)

/-- JavaScript `String.prototype.split(',')`. -/
def splitComma : Str → List Str
  | [] => [[]]
  | c :: rest =>
    if c = ',' then [] :: splitComma rest
    else
      match splitComma rest with
      | [] => [[c]]
      | h :: t => (c :: h) :: t

/-- The row-mapping step of `getAllSnippets`:
`tags: row.tags ? row.tags.split(',') : []` (both SQL NULL and the empty
string are falsy in JavaScript). -/
def jsTagsField : Option Str → List Str
  | none => []
  | some s => if s.isEmpty then [] else splitComma s

/-- One group of the aggregated query for a given snippet: the joined rows,
filtered by the WHERE clause when a search text is present (`if
(searchQuery)` — only the empty string is falsy), then collapsed by
`GROUP BY s.id` with `GROUP_CONCAT(t.name)`. The group disappears when every
joined row is filtered out. -/
def snippetQueryRow (db : DB) (q : Str) (s : SnippetRow) : Option SnippetRecord :=
  let rows := joinTagNames db s.id
  let surv := if q.isEmpty then rows else rows.filter (rowPasses q s)
  if surv.isEmpty then none
  else
    some { id := s.id, title := s.title, code := s.code, language := s.language,
           created_at := s.created_at,
           tags := jsTagsField (groupConcatNames surv) }

/-- Insertion step of `ORDER BY s.created_at DESC`. -/
def insertByCreatedDesc (r : SnippetRecord) : List SnippetRecord → List SnippetRecord
  | [] => [r]
  | x :: xs => if x.created_at < r.created_at then r :: x :: xs else x :: insertByCreatedDesc r xs

/-- `ORDER BY s.created_at DESC` (ties are left in an unspecified order, as
in SQLite). -/
def orderByCreatedDesc (rs : List SnippetRecord) : List SnippetRecord :=
  rs.foldr insertByCreatedDesc []

/-- `snippetModel.getAllSnippets(searchQuery)`: the aggregated, optionally
filtered, ordered listing, with each row's `tags` string parsed to an
array. -/
def getAllSnippets (searchQuery : Str) (db : DB) : List SnippetRecord :=
  orderByCreatedDesc (db.snippets.filterMap (snippetQueryRow db searchQuery))

/-- The tag names of a snippet's live association rows at read time (each
junction row resolved through the tags table). -/
def liveTagNames (db : DB) (sid : Nat) : List Str :=
  (db.snippet_tags.filter (fun l => l.snippet_id == sid)).filterMap
    (fun l => (db.tags.find? (fun t => t.id == l.tag_id)).map (fun t => t.name))

/-- The default of `language || 'javascript'`. -/
def defaultLanguage : Str := ['j', 'a', 'v', 'a', 's', 'c', 'r', 'i', 'p', 't']

/-- Input of `snippetModel.createSnippet` (the object
`{title, code, language, tags}`). -/
structure SnippetData where
  title : Str
  code : Str
  language : Str
  tags : List Str
deriving DecidableEq, Repr

/-- The object resolved by `snippetModel.createSnippet`:
`{id: snippetId, ...snippetData}` (with `tags: []` on the tag-free path).
Note it carries no `created_at` and echoes the raw input fields. -/
structure CreatedRecord where
  id : Nat
  title : Str
  code : Str
  language : Str
  tags : List Str
deriving DecidableEq, Repr

/-- One iteration of the tag-processing loop of `createSnippet`: insert the
tag with OR IGNORE, look its id up by name, link it to the snippet. Any
error is appended to `tagErrors` and processing continues with the next
tag. -/
def processTag (sid : Nat) (acc : DB × List SqlError) (tagName : Str) : DB × List SqlError :=
  let db1 := sqlInsertOrIgnoreTag acc.1 tagName
  match sqlSelectTagId db1 tagName with
  | none => (db1, acc.2 ++ [SqlError.noSuchRow])
  | some tid =>
    match sqlInsertLink db1 sid tid with
    | Except.error e => (db1, acc.2 ++ [e])
    | Except.ok db2 => (db2, acc.2)

/-- The write phase of `createSnippet` inside the transaction: insert the
snippet row, then run the tag loop over the raw input tags (duplicates
included), collecting `tagErrors` in processing order. Returns the assigned
snippet id, the uncommitted state and the collected errors. -/
def tagLoop (data : SnippetData) (db0 : DB) : Nat × DB × List SqlError :=
  let lang := if data.language.isEmpty then defaultLanguage else data.language
  let ins := sqlInsertSnippet db0 data.title data.code lang
  (ins.2, data.tags.foldl (processTag ins.2) (ins.1, []))

/-- `snippetModel.createSnippet(snippetData)`: BEGIN TRANSACTION, insert the
snippet, commit immediately with `tags: []` when the input tag list is
empty; otherwise run the tag loop and, in `checkCompletion`, COMMIT on no
errors or ROLLBACK (restoring the state at BEGIN) and reject with
`tagErrors[0]`. Returns the persisted state and the settled promise. -/
def createSnippet (data : SnippetData) (db0 : DB) : DB × Except SqlError CreatedRecord :=
  let r := tagLoop data db0
  if data.tags.isEmpty then
    (r.2.1,
     Except.ok { id := r.1, title := data.title, code := data.code,
                 language := data.language, tags := [] })
  else
    match r.2.2 with
    | [] =>
      (r.2.1,
       Except.ok { id := r.1, title := data.title, code := data.code,
                   language := data.language, tags := data.tags })
    | e :: _ => (db0, Except.error e)

/-- The insert-or-reuse step for one tag name, in isolation: `INSERT OR
IGNORE` followed by `SELECT id FROM tags WHERE name = ?`. -/
def insertTagAndSelect (db : DB) (name : Str) : DB × Option Nat :=
  let db1 := sqlInsertOrIgnoreTag db name
  (db1, sqlSelectTagId db1 name)

/-- `snippetModel.deleteSnippet(id)`: open a fresh connection (foreign keys
OFF) and run the DELETE with the raw id string bound; resolves
`{success, changes}` and never rejects on a well-formed statement. -/
def deleteSnippetModel (db : DB) (idText : Str) : DB × Nat :=
  sqlDeleteSnippet createConnection db idText

/-- Outcome of `DELETE /api/snippets/:id` as the controller reports it. -/
inductive DeleteResponse
  | badRequest
  | notFound
  | ok
deriving DecidableEq, Repr

/-- The `deleteSnippet` controller: reject with 400 when `isNaN(id)`,
otherwise pass the id string to the model and map `changes === 0` to 404. -/
def deleteSnippetController (idParam : Str) (db : DB) : DB × DeleteResponse :=
  if jsIsNaN idParam then (db, DeleteResponse.badRequest)
  else
    let r := deleteSnippetModel db idParam
    if r.2 = 0 then (r.1, DeleteResponse.notFound) else (r.1, DeleteResponse.ok)

/-- Outcome of `POST /api/snippets` as the controller reports it. -/
inductive CreateResponse
  | badRequest
  | created (rec : CreatedRecord)
  | serverError (e : SqlError)
deriving DecidableEq, Repr

/-- The `createSnippet` controller: `if (!title || !code)` — for string
fields only the empty string is falsy, and no trimming is performed — reject
with 400 before any model call; otherwise call the model with
`language || 'javascript'` and `tags || []`. -/
def createSnippetController (title code language : Str) (tags : List Str) (db : DB) :
    DB × CreateResponse :=
  if title.isEmpty || code.isEmpty then (db, CreateResponse.badRequest)
  else
    let lang := if language.isEmpty then defaultLanguage else language
    let r := createSnippet { title := title, code := code, language := lang, tags := tags } db
    match r.2 with
    | Except.ok rec => (r.1, CreateResponse.created rec)
    | Except.error e => (r.1, CreateResponse.serverError e)

/-- Structural invariants the live schema maintains: unique snippet ids,
unique tag ids and names, no duplicate junction pairs (the composite primary
key), and every junction row resolvable on both sides. -/
def WellFormedDB (db : DB) : Prop :=
  (db.snippets.map (fun s => s.id)).Nodup ∧
  (db.tags.map (fun t => t.id)).Nodup ∧
  (db.tags.map (fun t => t.name)).Nodup ∧
  db.snippet_tags.Nodup ∧
  (∀ l ∈ db.snippet_tags, ∃ t ∈ db.tags, t.id = l.tag_id) ∧
  (∀ l ∈ db.snippet_tags, ∃ s ∈ db.snippets, s.id = l.snippet_id)

/-- Tag names that round-trip through `GROUP_CONCAT` + `split(',')`: nonempty
and comma-free. -/
def TagNamesClean (db : DB) : Prop :=
  ∀ t ∈ db.tags, (',' ∉ t.name) ∧ t.name ≠ []

/-- Spec-side search predicate (the claim's words): the text appears as a
case-insensitive substring of the title, the code, the language, or the name
of some associated tag. -/
def specSearchMatches (db : DB) (q : Str) (s : SnippetRow) : Prop :=
  containsCI s.title q = true ∨ containsCI s.code q = true ∨
    containsCI s.language q = true ∨
    ∃ l ∈ db.snippet_tags, l.snippet_id = s.id ∧
      ∃ t ∈ db.tags, t.id = l.tag_id ∧ containsCI t.name q = true

/-- The tag name used in several concrete scenarios. -/
def strPython : Str := ['p', 'y', 't', 'h', 'o', 'n']

/-- A database with one snippet (id 1) tagged both `python` and `js`, whose
title, code and language contain no occurrence of `python`. -/
def exampleTagOnlyDB : DB :=
  { snippets := [{ id := 1, title := ['a'], code := ['b'], language := ['c'], created_at := 0 }],
    tags := [{ id := 1, name := strPython }, { id := 2, name := ['j', 's'] }],
    snippet_tags := [{ snippet_id := 1, tag_id := 1 }, { snippet_id := 1, tag_id := 2 }],
    nextSnippetId := 2, nextTagId := 3, clock := 1 }

/-- A database with one untagged snippet whose fields contain no underscore
and no percent sign. -/
def exampleWildcardDB : DB :=
  { snippets :=
      [{ id := 1, title := ['a', 'b', 'c'], code := ['d'], language := ['e'], created_at := 0 }],
    tags := [], snippet_tags := [], nextSnippetId := 2, nextTagId := 1, clock := 1 }

/-- A database with one snippet (id 1) carrying two tags, the cascade-delete
scenario of the spec. -/
def exampleCascadeDB : DB :=
  { snippets := [{ id := 1, title := ['t'], code := ['c'], language := ['l'], created_at := 0 }],
    tags := [{ id := 1, name := ['a'] }, { id := 2, name := ['b'] }],
    snippet_tags := [{ snippet_id := 1, tag_id := 1 }, { snippet_id := 1, tag_id := 2 }],
    nextSnippetId := 2, nextTagId := 3, clock := 1 }

/-- A database with one snippet whose single tag is named `a,b` (a comma in
the name). -/
def exampleCommaDB : DB :=
  { snippets := [{ id := 1, title := ['t'], code := ['c'], language := ['l'], created_at := 0 }],
    tags := [{ id := 1, name := ['a', ',', 'b'] }],
    snippet_tags := [{ snippet_id := 1, tag_id := 1 }],
    nextSnippetId := 2, nextTagId := 2, clock := 1 }

/-- A tag name is already linked to a snippet: the name lookup resolves to
an id whose junction pair with the snippet is present. Processing the same
name again makes the link insert hit the composite primary key. -/
def tagLinked (db : DB) (sid : Nat) (x : Str) : Prop :=
  ∃ i, sqlSelectTagId db x = some i ∧
    ({ snippet_id := sid, tag_id := i } : TagLink) ∈ db.snippet_tags

/-- A database holding snippets with ids 1000 and 16, to exhibit the
coercion boundary of the delete route: `'1e3'` is numeric for both
JavaScript and SQLite and deletes row 1000, while `'0x10'` is numeric for
JavaScript (so it passes validation) but not a well-formed SQLite literal,
so it matches no row — not even id 16. -/
def exampleAffinityDB : DB :=
  { snippets :=
      [{ id := 1000, title := ['t'], code := ['c'], language := ['l'], created_at := 0 },
       { id := 16, title := ['u'], code := ['d'], language := ['m'], created_at := 1 }],
    tags := [], snippet_tags := [], nextSnippetId := 1001, nextTagId := 1, clock := 2 }

/-! ### Helper lemmas -/

theorem likeMatch_nil (s : Str) : likeMatch [] s = s.isEmpty := rfl

theorem likeMatch_cons (p : Char) (ps s : Str) :
    likeMatch (p :: ps) s =
      (if p = '%' then s.tails.any (fun t => likeMatch ps t)
       else
         match s with
         | [] => false
         | c :: s2 => (p == '_' || lowAscii p == lowAscii c) && likeMatch ps s2) := rfl

theorem perm_insertByCreatedDesc (r : SnippetRecord) (l : List SnippetRecord) :
    List.Perm (insertByCreatedDesc r l) (r :: l) := by
  induction l with
  | nil => exact List.Perm.refl _
  | cons x xs ih =>
    unfold insertByCreatedDesc
    by_cases h : x.created_at < r.created_at
    · rw [if_pos h]
    · rw [if_neg h]
      exact (ih.cons x).trans (List.Perm.swap r x xs)

theorem perm_orderByCreatedDesc (rs : List SnippetRecord) :
    List.Perm (orderByCreatedDesc rs) rs := by
  induction rs with
  | nil => exact List.Perm.refl _
  | cons x xs ih =>
    exact (perm_insertByCreatedDesc x (orderByCreatedDesc xs)).trans (ih.cons x)

theorem mem_orderByCreatedDesc (a : SnippetRecord) (rs : List SnippetRecord) :
    a ∈ orderByCreatedDesc rs ↔ a ∈ rs :=
  (perm_orderByCreatedDesc rs).mem_iff

theorem sorted_insertByCreatedDesc (r : SnippetRecord) (l : List SnippetRecord)
    (h : l.Pairwise (fun a b => b.created_at ≤ a.created_at)) :
    (insertByCreatedDesc r l).Pairwise (fun a b => b.created_at ≤ a.created_at) := by
  induction l with
  | nil => simp [insertByCreatedDesc]
  | cons x xs ih =>
    rcases List.pairwise_cons.1 h with ⟨hx, hxs⟩
    unfold insertByCreatedDesc
    by_cases hc : x.created_at < r.created_at
    · simp only [if_pos hc]
      refine List.pairwise_cons.2 ⟨?_, h⟩
      intro b hb
      rcases List.mem_cons.1 hb with hbx | hbxs
      · exact hbx ▸ Nat.le_of_lt hc
      · exact Nat.le_trans (hx b hbxs) (Nat.le_of_lt hc)
    · simp only [if_neg hc]
      refine List.pairwise_cons.2 ⟨?_, ih hxs⟩
      intro b hb
      rcases List.mem_cons.1 ((perm_insertByCreatedDesc r xs).mem_iff.1 hb) with hbr | hbxs
      · exact hbr ▸ Nat.le_of_not_lt hc
      · exact hx b hbxs

theorem sorted_orderByCreatedDesc (rs : List SnippetRecord) :
    (orderByCreatedDesc rs).Pairwise (fun a b => b.created_at ≤ a.created_at) := by
  induction rs with
  | nil => simp [orderByCreatedDesc]
  | cons x xs ih => exact sorted_insertByCreatedDesc x (orderByCreatedDesc xs) ih

theorem find?_beq_eq_some_iff {α β : Type} [BEq β] [LawfulBEq β] (key : α → β) (x : β)
    (l : List α) (hnd : (l.map key).Nodup) (t : α) :
    l.find? (fun a => key a == x) = some t ↔ (t ∈ l ∧ key t = x) := by
  induction l with
  | nil => simp
  | cons a as ih =>
    rw [List.map_cons, List.nodup_cons] at hnd
    by_cases h : key a = x
    · rw [List.find?_cons_of_pos _ (by simp [h])]
      constructor
      · intro he
        injection he with he2
        subst he2
        exact ⟨List.mem_cons_self a as, h⟩
      · rintro ⟨hmem, hkey⟩
        rcases List.mem_cons.1 hmem with rfl | hmem2
        · rfl
        · exact absurd (h ▸ hkey ▸ List.mem_map_of_mem key hmem2) hnd.1
    · rw [List.find?_cons_of_neg _ (by simp [h])]
      rw [ih hnd.2]
      constructor
      · rintro ⟨hmem, hkey⟩
        exact ⟨List.mem_cons_of_mem a hmem, hkey⟩
      · rintro ⟨hmem, hkey⟩
        rcases List.mem_cons.1 hmem with rfl | hmem2
        · exact absurd hkey h
        · exact ⟨hmem2, hkey⟩

theorem map_filterMap_sublist {α β γ : Type} (f : α → Option β) (g : β → γ) (k : α → γ)
    (hf : ∀ a b, f a = some b → g b = k a) (l : List α) :
    List.Sublist ((l.filterMap f).map g) (l.map k) := by
  induction l with
  | nil => simp
  | cons a as ih =>
    cases hfa : f a with
    | none =>
      rw [List.filterMap_cons_none hfa, List.map_cons]
      exact ih.cons (k a)
    | some b =>
      rw [List.filterMap_cons_some hfa, List.map_cons, List.map_cons, hf a b hfa]
      exact ih.cons₂ (k a)

theorem splitComma_of_no_comma (n : Str) (h : ',' ∉ n) : splitComma n = [n] := by
  induction n with
  | nil => rfl
  | cons c cs ih =>
    have hc : ¬(c = ',') := fun e => h (e ▸ List.mem_cons_self c cs)
    have hcs : ',' ∉ cs := fun m => h (List.mem_cons_of_mem c m)
    rw [splitComma, if_neg hc, ih hcs]

theorem splitComma_append_comma (n r : Str) (h : ',' ∉ n) :
    splitComma (n ++ ',' :: r) = n :: splitComma r := by
  induction n with
  | nil => simp [splitComma]
  | cons c cs ih =>
    have hc : ¬(c = ',') := fun e => h (e ▸ List.mem_cons_self c cs)
    have hcs : ',' ∉ cs := fun m => h (List.mem_cons_of_mem c m)
    rw [List.cons_append, splitComma, if_neg hc, ih hcs]

theorem splitComma_joinComma (names : List Str) (h : ∀ n ∈ names, ',' ∉ n)
    (hne : names ≠ []) : splitComma (joinComma names) = names := by
  induction names with
  | nil => exact absurd rfl hne
  | cons n rest ih =>
    cases rest with
    | nil => exact splitComma_of_no_comma n (h n (List.mem_cons_self n []))
    | cons m t =>
      have hj : joinComma (n :: m :: t) = n ++ ',' :: joinComma (m :: t) := rfl
      rw [hj, splitComma_append_comma n _ (h n (List.mem_cons_self n (m :: t))),
        ih (fun a ha => h a (List.mem_cons_of_mem n ha)) (by simp)]

theorem likeMatch_literal_append (q : Str) (hq : wildcardFree q = true) (s : Str) :
    likeMatch (q ++ ['%']) s = isPrefixOfCI q s := by
  induction q generalizing s with
  | nil =>
    rw [List.nil_append]
    show likeMatch ['%'] s = true
    rw [likeMatch_cons, if_pos rfl, List.any_eq_true]
    exact ⟨[], (List.mem_tails [] s).2 List.nil_suffix, rfl⟩
  | cons c q ih =>
    rw [wildcardFree, List.all_cons, Bool.and_eq_true, Bool.not_eq_true',
      Bool.or_eq_false_iff, beq_eq_false_iff_ne, beq_eq_false_iff_ne] at hq
    rcases hq with ⟨⟨hp, hu⟩, hwf⟩
    rw [List.cons_append, likeMatch_cons, if_neg hp]
    cases s with
    | nil => rfl
    | cons c2 s2 =>
      show ((c == '_' || lowAscii c == lowAscii c2) && likeMatch (q ++ ['%']) s2) =
        ((lowAscii c == lowAscii c2) && isPrefixOfCI q s2)
      rw [ih hwf s2, beq_eq_false_iff_ne.2 hu, Bool.false_or]

theorem likeMatch_likeParam (q s : Str) (hq : wildcardFree q = true) :
    likeMatch (likeParam q) s = containsCI s q := by
  rw [likeParam, containsCI, likeMatch_cons, if_pos rfl]
  congr 1
  funext t
  exact likeMatch_literal_append q hq t

theorem joinTagNames_ne_nil (db : DB) (sid : Nat) : joinTagNames db sid ≠ [] := by
  unfold joinTagNames
  by_cases h : (db.snippet_tags.filter (fun l => l.snippet_id == sid)).isEmpty
  · simp [h]
  · simp only [if_neg h]
    rw [Ne, List.map_eq_nil_iff]
    exact fun e => h (e ▸ rfl)

theorem snippetQueryRow_id (db : DB) (q : Str) (s : SnippetRow) (r : SnippetRecord)
    (h : snippetQueryRow db q s = some r) : r.id = s.id := by
  unfold snippetQueryRow at h
  by_cases he :
      (if q.isEmpty then joinTagNames db s.id
       else (joinTagNames db s.id).filter (rowPasses q s)).isEmpty
  · rw [if_pos he] at h
    exact absurd h (by simp)
  · rw [if_neg he] at h
    injection h with h2
    rw [← h2]

theorem snippetQueryRow_nil (db : DB) (s : SnippetRow) :
    snippetQueryRow db [] s =
      some { id := s.id, title := s.title, code := s.code, language := s.language,
             created_at := s.created_at,
             tags := jsTagsField (groupConcatNames (joinTagNames db s.id)) } := by
  unfold snippetQueryRow
  have hne : (joinTagNames db s.id).isEmpty = false := by
    rw [← Bool.not_eq_true, List.isEmpty_iff]
    exact joinTagNames_ne_nil db s.id
  simp only [List.isEmpty_nil, if_true, hne, Bool.false_eq_true, if_false]

theorem exists_record_iff_isSome (db : DB) (q : Str)
    (hnd : (db.snippets.map (fun s => s.id)).Nodup) (s : SnippetRow) (hs : s ∈ db.snippets) :
    (∃ r ∈ db.snippets.filterMap (snippetQueryRow db q), r.id = s.id) ↔
      (snippetQueryRow db q s).isSome = true := by
  constructor
  · rintro ⟨r, hrmem, hrid⟩
    rcases List.mem_filterMap.1 hrmem with ⟨s2, hs2, hf⟩
    have hid : s2.id = s.id := (snippetQueryRow_id db q s2 r hf) ▸ hrid
    have : s2 = s := List.inj_on_of_nodup_map hnd hs2 hs hid
    subst this
    rw [hf]
    rfl
  · intro hsome
    rcases Option.isSome_iff_exists.1 hsome with ⟨r, hr⟩
    exact ⟨r, List.mem_filterMap.2 ⟨s, hs, hr⟩, snippetQueryRow_id db q s r hr⟩

theorem snippetQueryRow_isSome_iff (db : DB) (q : Str) (s : SnippetRow)
    (hq : q.isEmpty = false) :
    (snippetQueryRow db q s).isSome = true ↔
      ∃ x ∈ joinTagNames db s.id, rowPasses q s x = true := by
  unfold snippetQueryRow
  rw [hq]
  simp only [Bool.false_eq_true, if_false]
  by_cases he : ((joinTagNames db s.id).filter (rowPasses q s)).isEmpty
  · rw [if_pos he]
    rw [List.isEmpty_iff, List.filter_eq_nil_iff] at he
    simp only [Option.isSome_none, Bool.false_eq_true, false_iff]
    rintro ⟨x, hx, hpass⟩
    exact he x hx hpass
  · rw [if_neg he]
    simp only [Option.isSome_some, true_iff]
    rw [List.isEmpty_iff] at he
    rcases List.exists_mem_of_ne_nil _ he with ⟨x, hx⟩
    exact ⟨x, (List.mem_filter.1 hx).1, (List.mem_filter.1 hx).2⟩

theorem rowPasses_none (q : Str) (s : SnippetRow) : rowPasses q s none = fieldLike q s := by
  unfold rowPasses
  rw [Bool.or_false]

theorem joinRow_passes_iff (db : DB) (q : Str) (s : SnippetRow)
    (htagids : (db.tags.map (fun t => t.id)).Nodup) :
    (∃ x ∈ joinTagNames db s.id, rowPasses q s x = true) ↔
      (fieldLike q s = true ∨
        ∃ l ∈ db.snippet_tags, l.snippet_id = s.id ∧
          ∃ t ∈ db.tags, t.id = l.tag_id ∧ likeMatch (likeParam q) t.name = true) := by
  unfold joinTagNames
  by_cases hL : (db.snippet_tags.filter (fun l => l.snippet_id == s.id)).isEmpty
  · rw [if_pos hL]
    rw [List.isEmpty_iff, List.filter_eq_nil_iff] at hL
    constructor
    · rintro ⟨x, hx, hpass⟩
      rcases List.mem_singleton.1 hx with rfl
      rw [rowPasses_none] at hpass
      exact Or.inl hpass
    · rintro (hf | ⟨l, hl, hlid, _⟩)
      · exact ⟨none, List.mem_singleton.2 rfl, by rw [rowPasses_none]; exact hf⟩
      · exact absurd (beq_iff_eq.2 hlid) (by simpa using hL l hl)
  · rw [if_neg hL]
    rw [List.isEmpty_iff] at hL
    by_cases hf : fieldLike q s = true
    · constructor
      · intro _
        exact Or.inl hf
      · intro _
        rcases List.exists_mem_of_ne_nil _ hL with ⟨l, hl⟩
        refine ⟨_, List.mem_map_of_mem _ hl, ?_⟩
        unfold rowPasses
        rw [hf, Bool.true_or]
    · constructor
      · rintro ⟨x, hx, hpass⟩
        rcases List.mem_map.1 hx with ⟨l, hl, rfl⟩
        unfold rowPasses at hpass
        rw [Bool.eq_false_iff.2 hf, Bool.false_or] at hpass
        rcases hopt : (db.tags.find? (fun t => t.id == l.tag_id)) with _ | t
        · rw [hopt] at hpass
          exact Bool.noConfusion hpass
        · rw [hopt] at hpass
          rcases (find?_beq_eq_some_iff (fun t => t.id) l.tag_id db.tags htagids t).1 hopt with
            ⟨htmem, htid⟩
          refine Or.inr ⟨l, (List.mem_filter.1 hl).1,
            beq_iff_eq.1 (List.mem_filter.1 hl).2, t, htmem, htid, hpass⟩
      · rintro (hf2 | ⟨l, hl, hlid, t, htmem, htid, hlike⟩)
        · exact absurd hf2 hf
        · have hlmem : l ∈ db.snippet_tags.filter (fun l => l.snippet_id == s.id) :=
            List.mem_filter.2 ⟨hl, beq_iff_eq.2 hlid⟩
          refine ⟨_, List.mem_map_of_mem _ hlmem, ?_⟩
          unfold rowPasses
          rw [(find?_beq_eq_some_iff (fun t => t.id) l.tag_id db.tags htagids t).2 ⟨htmem, htid⟩]
          show (fieldLike q s || likeMatch (likeParam q) t.name) = true
          rw [hlike, Bool.or_true]

theorem filter_key_length_one {α β : Type} [BEq β] [LawfulBEq β] (key : α → β) (x : β)
    (l : List α) (hn : (l.map key).Nodup) (h : ∃ a ∈ l, key a = x) :
    (l.filter (fun a => key a == x)).length = 1 := by
  induction l with
  | nil => simp at h
  | cons a as ih =>
    rw [List.map_cons, List.nodup_cons] at hn
    by_cases ha : key a = x
    · rw [List.filter_cons_of_pos (by simp [ha])]
      have : as.filter (fun b => key b == x) = [] := by
        apply List.filter_eq_nil_iff.2
        intro b hb hbx
        exact hn.1 (ha ▸ (beq_iff_eq.1 hbx) ▸ List.mem_map_of_mem key hb)
      rw [this]
      rfl
    · rw [List.filter_cons_of_neg (by simp [ha])]
      apply ih hn.2
      rcases h with ⟨b, hb, hbx⟩
      rcases List.mem_cons.1 hb with rfl | hb2
      · exact absurd hbx ha
      · exact ⟨b, hb2, hbx⟩

theorem nodup_tagIds_of_same_snippet (sid : Nat) (ls : List TagLink) (hnd : ls.Nodup)
    (hall : ∀ l ∈ ls, l.snippet_id = sid) : (ls.map (fun l => l.tag_id)).Nodup := by
  induction ls with
  | nil => simp
  | cons l ls ih =>
    rw [List.nodup_cons] at hnd
    rw [List.map_cons, List.nodup_cons]
    refine ⟨?_, ih hnd.2 (fun a ha => hall a (List.mem_cons_of_mem l ha))⟩
    intro hmem
    rcases List.mem_map.1 hmem with ⟨l2, hl2, htid⟩
    have hsid : l2.snippet_id = l.snippet_id :=
      (hall l2 (List.mem_cons_of_mem l hl2)).trans (hall l (List.mem_cons_self l ls)).symm
    have : l2 = l := by
      cases l; cases l2
      simp only [TagLink.mk.injEq]
      exact ⟨hsid, htid⟩
    exact hnd.1 (this ▸ hl2)

theorem nodup_resolved_names (tags : List TagRow) (htid : (tags.map (fun t => t.id)).Nodup)
    (hnames : (tags.map (fun t => t.name)).Nodup) (ls : List TagLink)
    (hltid : (ls.map (fun l => l.tag_id)).Nodup) :
    (ls.filterMap
        (fun l => (tags.find? (fun t => t.id == l.tag_id)).map (fun t => t.name))).Nodup := by
  induction ls with
  | nil => simp
  | cons l ls ih =>
    rw [List.map_cons, List.nodup_cons] at hltid
    cases hf : (tags.find? (fun t => t.id == l.tag_id)).map (fun t => t.name) with
    | none =>
      rw [List.filterMap_cons]
      simp only [hf]
      exact ih hltid.2
    | some n =>
      rw [List.filterMap_cons]
      simp only [hf]
      rw [List.nodup_cons]
      refine ⟨?_, ih hltid.2⟩
      intro hmem
      rcases Option.map_eq_some'.1 hf with ⟨t, hft, hname⟩
      rcases List.mem_filterMap.1 hmem with ⟨l2, hl2, hf2⟩
      rcases Option.map_eq_some'.1 hf2 with ⟨t2, hft2, hname2⟩
      rcases (find?_beq_eq_some_iff (fun t => t.id) l.tag_id tags htid t).1 hft with ⟨htmem, htidl⟩
      rcases (find?_beq_eq_some_iff (fun t => t.id) l2.tag_id tags htid t2).1 hft2 with
        ⟨htmem2, htidl2⟩
      have ht : t = t2 :=
        List.inj_on_of_nodup_map hnames htmem htmem2 (by rw [hname, hname2])
      exact hltid.1 (List.mem_map.2 ⟨l2, hl2, by rw [← htidl2, ← ht, htidl]⟩)

theorem joinComma_ne_nil (names : List Str) (h1 : names ≠ [])
    (h2 : ∀ n ∈ names, n ≠ []) : joinComma names ≠ [] := by
  cases names with
  | nil => exact absurd rfl h1
  | cons n rest =>
    cases rest with
    | nil => exact h2 n (List.mem_cons_self n [])
    | cons m t =>
      show n ++ ',' :: joinComma (m :: t) ≠ []
      simp

/-! ### Claim theorems -/

/-- Claim C1: for every `createSnippet` call with a non-empty tag list, if
any tag insert or tag link operation fails, the entire transaction rolls
back — the persisted state is exactly the state at `BEGIN TRANSACTION`, so
no snippet row, no tag row and no association row from the attempt
persists — and the error surfaced to the caller is the first failure
collected by the tag loop (`tagErrors[0]`). -/
theorem c1_create_rollback_atomicity (data : SnippetData) (db0 : DB) (e : SqlError)
    (htags : data.tags ≠ [])
    (herr : (createSnippet data db0).2 = Except.error e) :
    (createSnippet data db0).1 = db0 ∧
      (createSnippet data db0).1.snippets = db0.snippets ∧
      (createSnippet data db0).1.tags = db0.tags ∧
      (createSnippet data db0).1.snippet_tags = db0.snippet_tags ∧
      (tagLoop data db0).2.2.head? = some e := by
  have hne : data.tags.isEmpty = false := by
    rw [← Bool.not_eq_true, List.isEmpty_iff]
    exact htags
  rcases hloop : (tagLoop data db0).2.2 with _ | ⟨e0, rest⟩
  · simp only [createSnippet, hne, Bool.false_eq_true, if_false, hloop] at herr
    exact Except.noConfusion herr
  · simp only [createSnippet, hne, Bool.false_eq_true, if_false, hloop] at herr ⊢
    injection herr with h2
    subst h2
    simp

/-- Witness for C1: creating a snippet with tags `["x", "x"]` on the empty
database makes the duplicate-link primary-key violation fire, and the
theorem applies. -/
theorem c1_create_rollback_atomicity_witness :
    (createSnippet { title := ['t'], code := ['c'], language := [],
                     tags := [['x'], ['x']] } emptyDB).1 = emptyDB ∧
      (createSnippet { title := ['t'], code := ['c'], language := [],
                       tags := [['x'], ['x']] } emptyDB).1.snippets = emptyDB.snippets ∧
      (createSnippet { title := ['t'], code := ['c'], language := [],
                       tags := [['x'], ['x']] } emptyDB).1.tags = emptyDB.tags ∧
      (createSnippet { title := ['t'], code := ['c'], language := [],
                       tags := [['x'], ['x']] } emptyDB).1.snippet_tags = emptyDB.snippet_tags ∧
      (tagLoop { title := ['t'], code := ['c'], language := [],
                 tags := [['x'], ['x']] } emptyDB).2.2.head? =
        some SqlError.constraintPrimaryKey :=
  c1_create_rollback_atomicity
    { title := ['t'], code := ['c'], language := [], tags := [['x'], ['x']] }
    emptyDB SqlError.constraintPrimaryKey (by decide) rfl

/-- Counterexample to claim C2: `createSnippet` with tags `["x", "x", "y"]`
does not succeed — the duplicate name is not collapsed, the second link
insert violates the junction primary key and the whole transaction rolls
back, so no record is produced and the tags table gains no row at all. -/
theorem c2_duplicate_tags_counterexample :
    (createSnippet { title := ['t'], code := ['c'], language := defaultLanguage,
                     tags := [['x'], ['x'], ['y']] } emptyDB).2 =
        Except.error SqlError.constraintPrimaryKey ∧
      (createSnippet { title := ['t'], code := ['c'], language := defaultLanguage,
                       tags := [['x'], ['x'], ['y']] } emptyDB).1 = emptyDB := by
  exact ⟨rfl, rfl⟩

theorem find?_append_some {α : Type} (p : α → Bool) (l1 l2 : List α) (t : α)
    (h : l1.find? p = some t) : (l1 ++ l2).find? p = some t := by
  induction l1 with
  | nil => exact absurd h (by simp)
  | cons a as ih =>
    cases hp : p a
    · have hp2 : ¬p a = true := by
        rw [hp]
        exact Bool.false_ne_true
      rw [List.find?_cons_of_neg _ hp2] at h
      rw [List.cons_append, List.find?_cons_of_neg _ hp2]
      exact ih h
    · rw [List.find?_cons_of_pos _ hp] at h
      rw [List.cons_append, List.find?_cons_of_pos _ hp]
      exact h

theorem insertOrIgnoreTag_links (db : DB) (y : Str) :
    (sqlInsertOrIgnoreTag db y).snippet_tags = db.snippet_tags := by
  unfold sqlInsertOrIgnoreTag
  by_cases h : db.tags.any (fun t => t.name == y) = true
  · rw [if_pos h]
  · rw [if_neg h]

theorem sqlSelectTagId_stable (db : DB) (x y : Str) (i : Nat)
    (h : sqlSelectTagId db x = some i) :
    sqlSelectTagId (sqlInsertOrIgnoreTag db y) x = some i := by
  unfold sqlSelectTagId at h ⊢
  unfold sqlInsertOrIgnoreTag
  by_cases hy : db.tags.any (fun t => t.name == y) = true
  · rw [if_pos hy]
    exact h
  · rw [if_neg hy]
    rcases Option.map_eq_some'.1 h with ⟨t, hft, hid⟩
    show ((db.tags ++ [({ id := db.nextTagId, name := y } : TagRow)]).find?
        (fun t => t.name == x)).map (fun t => t.id) = some i
    rw [find?_append_some _ db.tags _ t hft]
    show some t.id = some i
    rw [hid]

theorem sqlInsertLink_present (db : DB) (sid tid : Nat)
    (h : db.snippet_tags.any (fun l => l.snippet_id == sid && l.tag_id == tid) = true) :
    sqlInsertLink db sid tid = Except.error SqlError.constraintPrimaryKey := by
  unfold sqlInsertLink
  rw [if_pos h]

theorem sqlInsertLink_absent (db : DB) (sid tid : Nat)
    (h : ¬db.snippet_tags.any (fun l => l.snippet_id == sid && l.tag_id == tid) = true) :
    sqlInsertLink db sid tid =
      Except.ok { db with
        snippet_tags := db.snippet_tags ++ [{ snippet_id := sid, tag_id := tid }] } := by
  unfold sqlInsertLink
  rw [if_neg h]

theorem processTag_eq (sid : Nat) (acc : DB × List SqlError) (x : Str) :
    processTag sid acc x =
      (match sqlSelectTagId (sqlInsertOrIgnoreTag acc.1 x) x with
       | none => (sqlInsertOrIgnoreTag acc.1 x, acc.2 ++ [SqlError.noSuchRow])
       | some tid =>
         match sqlInsertLink (sqlInsertOrIgnoreTag acc.1 x) sid tid with
         | Except.error e => (sqlInsertOrIgnoreTag acc.1 x, acc.2 ++ [e])
         | Except.ok db2 => (db2, acc.2)) := rfl

theorem processTag_none_eq (sid : Nat) (acc : DB × List SqlError) (x : Str)
    (hsel : sqlSelectTagId (sqlInsertOrIgnoreTag acc.1 x) x = none) :
    processTag sid acc x = (sqlInsertOrIgnoreTag acc.1 x, acc.2 ++ [SqlError.noSuchRow]) := by
  rw [processTag_eq, hsel]

theorem processTag_some_eq (sid : Nat) (acc : DB × List SqlError) (x : Str) (tid : Nat)
    (hsel : sqlSelectTagId (sqlInsertOrIgnoreTag acc.1 x) x = some tid) :
    processTag sid acc x =
      (match sqlInsertLink (sqlInsertOrIgnoreTag acc.1 x) sid tid with
       | Except.error e => (sqlInsertOrIgnoreTag acc.1 x, acc.2 ++ [e])
       | Except.ok db2 => (db2, acc.2)) := by
  rw [processTag_eq, hsel]

theorem processTag_establishes (sid : Nat) (acc : DB × List SqlError) (x : Str) :
    ((processTag sid acc x).2 = acc.2 ∧ tagLinked (processTag sid acc x).1 sid x) ∨
      ∃ e, (processTag sid acc x).2 = acc.2 ++ [e] := by
  cases hsel : sqlSelectTagId (sqlInsertOrIgnoreTag acc.1 x) x with
  | none =>
    rw [processTag_none_eq sid acc x hsel]
    exact Or.inr ⟨SqlError.noSuchRow, rfl⟩
  | some tid =>
    by_cases hp : (sqlInsertOrIgnoreTag acc.1 x).snippet_tags.any
        (fun l => l.snippet_id == sid && l.tag_id == tid) = true
    · rw [processTag_some_eq sid acc x tid hsel, sqlInsertLink_present _ _ _ hp]
      exact Or.inr ⟨SqlError.constraintPrimaryKey, rfl⟩
    · rw [processTag_some_eq sid acc x tid hsel, sqlInsertLink_absent _ _ _ hp]
      exact Or.inl ⟨rfl, tid, hsel, List.mem_append_right _ (List.mem_singleton.2 rfl)⟩

theorem processTag_preserves_tagLinked (sid : Nat) (acc : DB × List SqlError) (x y : Str)
    (h : tagLinked acc.1 sid x) : tagLinked (processTag sid acc y).1 sid x := by
  rcases h with ⟨i, hsel, hmem⟩
  have hsel1 : sqlSelectTagId (sqlInsertOrIgnoreTag acc.1 y) x = some i :=
    sqlSelectTagId_stable acc.1 x y i hsel
  have hmem1 : ({ snippet_id := sid, tag_id := i } : TagLink) ∈
      (sqlInsertOrIgnoreTag acc.1 y).snippet_tags := by
    rw [insertOrIgnoreTag_links]
    exact hmem
  cases hsel2 : sqlSelectTagId (sqlInsertOrIgnoreTag acc.1 y) y with
  | none =>
    rw [processTag_none_eq sid acc y hsel2]
    exact ⟨i, hsel1, hmem1⟩
  | some tid =>
    by_cases hp : (sqlInsertOrIgnoreTag acc.1 y).snippet_tags.any
        (fun l => l.snippet_id == sid && l.tag_id == tid) = true
    · rw [processTag_some_eq sid acc y tid hsel2, sqlInsertLink_present _ _ _ hp]
      exact ⟨i, hsel1, hmem1⟩
    · rw [processTag_some_eq sid acc y tid hsel2, sqlInsertLink_absent _ _ _ hp]
      exact ⟨i, hsel1, List.mem_append_left _ hmem1⟩

theorem processTag_relink_errors (sid : Nat) (acc : DB × List SqlError) (x : Str)
    (h : tagLinked acc.1 sid x) :
    (processTag sid acc x).2 = acc.2 ++ [SqlError.constraintPrimaryKey] := by
  rcases h with ⟨i, hsel, hmem⟩
  have hsel1 : sqlSelectTagId (sqlInsertOrIgnoreTag acc.1 x) x = some i :=
    sqlSelectTagId_stable acc.1 x x i hsel
  have hmem1 : ({ snippet_id := sid, tag_id := i } : TagLink) ∈
      (sqlInsertOrIgnoreTag acc.1 x).snippet_tags := by
    rw [insertOrIgnoreTag_links]
    exact hmem
  have hany : (sqlInsertOrIgnoreTag acc.1 x).snippet_tags.any
      (fun l => l.snippet_id == sid && l.tag_id == i) = true :=
    List.any_eq_true.2 ⟨_, hmem1, by simp⟩
  rw [processTag_some_eq sid acc x i hsel1, sqlInsertLink_present _ _ _ hany]

theorem processTag_errors_extend (sid : Nat) (acc : DB × List SqlError) (x : Str) :
    ∃ p, (processTag sid acc x).2 = acc.2 ++ p := by
  cases hsel : sqlSelectTagId (sqlInsertOrIgnoreTag acc.1 x) x with
  | none =>
    rw [processTag_none_eq sid acc x hsel]
    exact ⟨[SqlError.noSuchRow], rfl⟩
  | some tid =>
    by_cases hp : (sqlInsertOrIgnoreTag acc.1 x).snippet_tags.any
        (fun l => l.snippet_id == sid && l.tag_id == tid) = true
    · rw [processTag_some_eq sid acc x tid hsel, sqlInsertLink_present _ _ _ hp]
      exact ⟨[SqlError.constraintPrimaryKey], rfl⟩
    · rw [processTag_some_eq sid acc x tid hsel, sqlInsertLink_absent _ _ _ hp]
      exact ⟨[], (List.append_nil acc.2).symm⟩

theorem foldl_errors_stay_nonempty (l : List Str) (sid : Nat) :
    ∀ acc : DB × List SqlError, acc.2 ≠ [] → (l.foldl (processTag sid) acc).2 ≠ [] := by
  induction l with
  | nil => exact fun acc h => h
  | cons y l ih =>
    intro acc h
    rw [List.foldl_cons]
    apply ih
    rcases processTag_errors_extend sid acc y with ⟨p, hp⟩
    rw [hp]
    intro he
    exact h (List.append_eq_nil.1 he).1

theorem foldl_duplicate_link_errors (l : List Str) (sid : Nat) :
    ∀ (acc : DB × List SqlError) (x : Str), tagLinked acc.1 sid x → x ∈ l →
      (l.foldl (processTag sid) acc).2 ≠ [] := by
  induction l with
  | nil => exact fun acc x _ hx => absurd hx (List.not_mem_nil x)
  | cons y l ih =>
    intro acc x hlink hx
    rw [List.foldl_cons]
    rcases List.mem_cons.1 hx with rfl | hx2
    · apply foldl_errors_stay_nonempty
      rw [processTag_relink_errors sid acc x hlink]
      simp
    · exact ih _ x (processTag_preserves_tagLinked sid acc x y hlink) hx2

theorem foldl_not_nodup_errors (l : List Str) (sid : Nat) :
    ∀ acc : DB × List SqlError, ¬l.Nodup → (l.foldl (processTag sid) acc).2 ≠ [] := by
  induction l with
  | nil => exact fun acc h => absurd List.nodup_nil h
  | cons y l ih =>
    intro acc h
    by_cases hy : y ∈ l
    · rw [List.foldl_cons]
      rcases processTag_establishes sid acc y with ⟨_, hlink⟩ | ⟨e, he⟩
      · exact foldl_duplicate_link_errors l sid _ y hlink hy
      · apply foldl_errors_stay_nonempty
        rw [he]
        simp
    · have hnd : ¬l.Nodup := fun hnd => h (List.nodup_cons.2 ⟨hy, hnd⟩)
      rw [List.foldl_cons]
      exact ih _ hnd

/-- Claim C2 as amended: duplicate tag names in the input are not collapsed.
For every database and every input whose tag list repeats a name, the
repeated name's second link insert violates the junction primary key, so
`createSnippet` fails and rolls back to the state at BEGIN; the claim's
end-to-end call with the duplicate removed (`["x", "y"]`) succeeds, returns
the record with tags `["x", "y"]`, and adds exactly the two rows `x`, `y`
to the tags table. -/
theorem c2_duplicate_tags_amended :
    (∀ (data : SnippetData) (db0 : DB), ¬data.tags.Nodup →
        ∃ e, createSnippet data db0 = (db0, Except.error e)) ∧
      (createSnippet { title := ['t'], code := ['c'], language := defaultLanguage,
                       tags := [['x'], ['y']] } emptyDB).2 =
        Except.ok { id := 1, title := ['t'], code := ['c'], language := defaultLanguage,
                    tags := [['x'], ['y']] } ∧
      (createSnippet { title := ['t'], code := ['c'], language := defaultLanguage,
                       tags := [['x'], ['y']] } emptyDB).1.tags.map (fun t => t.name) =
        [['x'], ['y']] := by
  refine ⟨?_, rfl, rfl⟩
  intro data db0 hdup
  have htags : data.tags ≠ [] := by
    intro h
    rw [h] at hdup
    exact hdup List.nodup_nil
  have hne : data.tags.isEmpty = false := by
    rw [← Bool.not_eq_true, List.isEmpty_iff]
    exact htags
  have hloop : (tagLoop data db0).2.2 ≠ [] := by
    have heq : (tagLoop data db0).2.2 =
        (data.tags.foldl
          (processTag (sqlInsertSnippet db0 data.title data.code
            (if data.language.isEmpty then defaultLanguage else data.language)).2)
          ((sqlInsertSnippet db0 data.title data.code
            (if data.language.isEmpty then defaultLanguage else data.language)).1, [])).2 := rfl
    rw [heq]
    exact foldl_not_nodup_errors data.tags _ _ hdup
  rcases he : (tagLoop data db0).2.2 with _ | ⟨e, rest⟩
  · exact absurd he hloop
  · refine ⟨e, ?_⟩
    simp only [createSnippet, hne, Bool.false_eq_true, if_false, he]

/-- Witness for C2 (amended): the claim's own duplicated input
`["x", "x", "y"]` on the empty database exercises the rollback branch. -/
theorem c2_duplicate_tags_amended_witness :
    ∃ e, createSnippet
        { title := ['t'], code := ['c'], language := defaultLanguage,
          tags := [['x'], ['x'], ['y']] }
        emptyDB =
      (emptyDB, Except.error e) :=
  c2_duplicate_tags_amended.1
    { title := ['t'], code := ['c'], language := defaultLanguage,
      tags := [['x'], ['x'], ['y']] }
    emptyDB (by decide)

/-- Counterexample to claim C5: a title consisting only of whitespace is not
rejected — `!title` is false for the string `" "`, so the controller calls
the model, a snippet row is inserted, and the request succeeds. -/
theorem c5_whitespace_title_counterexample :
    (createSnippetController [' '] ['c'] [] [] emptyDB).2 =
        CreateResponse.created
          { id := 1, title := [' '], code := ['c'], language := defaultLanguage, tags := [] } ∧
      (createSnippetController [' '] ['c'] [] [] emptyDB).1.snippets =
        [{ id := 1, title := [' '], code := ['c'], language := defaultLanguage,
           created_at := 0 }] := by
  exact ⟨rfl, rfl⟩

/-- Claim C5 as amended: the create controller fails with the validation
error exactly when the title or the code is the empty string (the only falsy
string) — no trimming is performed, so whitespace-only values pass — and on
a validation failure the database is untouched and no store call is made. -/
theorem c5_validation_amended (title code language : Str) (tags : List Str) (db : DB) :
    ((createSnippetController title code language tags db).2 = CreateResponse.badRequest ↔
        (title = [] ∨ code = [])) ∧
      ((title = [] ∨ code = []) →
        createSnippetController title code language tags db = (db, CreateResponse.badRequest)) := by
  unfold createSnippetController
  by_cases h : (title.isEmpty || code.isEmpty) = true
  · rw [if_pos h]
    rw [Bool.or_eq_true, List.isEmpty_iff, List.isEmpty_iff] at h
    exact ⟨⟨fun _ => h, fun _ => rfl⟩, fun _ => rfl⟩
  · rw [if_neg h]
    rw [Bool.or_eq_true, List.isEmpty_iff, List.isEmpty_iff] at h
    push_neg at h
    have hnotbad : ∀ p : DB × Except SqlError CreatedRecord,
        (match p.2 with
          | Except.ok rec => (p.1, CreateResponse.created rec)
          | Except.error e => (p.1, CreateResponse.serverError e)).2 ≠
          CreateResponse.badRequest := by
      rintro ⟨d, e | rec⟩ <;> simp
    constructor
    · constructor
      · intro hbad
        exact absurd hbad (hnotbad _)
      · intro hor
        rcases hor with h1 | h2
        · exact absurd h1 h.1
        · exact absurd h2 h.2
    · intro hor
      rcases hor with h1 | h2
      · exact absurd h1 h.1
      · exact absurd h2 h.2

/-- Witness for C5 (amended): the empty title is rejected with no state
change. -/
theorem c5_validation_amended_witness :
    createSnippetController [] ['c'] [] [] emptyDB = (emptyDB, CreateResponse.badRequest) :=
  (c5_validation_amended [] ['c'] [] [] emptyDB).2 (Or.inl rfl)

/-- Claim C6, evaluated at the failing input: deleting snippet 1 (which
carries two tags) through the model removes the snippet row and reports one
change, but — because the per-call connection never enables
`PRAGMA foreign_keys` — leaves both association rows behind as orphans; the
tag rows themselves also remain. The code's own comment ("Cascade delete
will automatically remove related snippet_tags entries") promises
otherwise. -/
theorem c6_delete_leaves_orphan_links :
    (deleteSnippetModel exampleCascadeDB ['1']).1.snippets = [] ∧
      (deleteSnippetModel exampleCascadeDB ['1']).1.snippet_tags =
        [{ snippet_id := 1, tag_id := 1 }, { snippet_id := 1, tag_id := 2 }] ∧
      (deleteSnippetModel exampleCascadeDB ['1']).1.tags = exampleCascadeDB.tags ∧
      (deleteSnippetModel exampleCascadeDB ['1']).2 = 1 := by
  exact ⟨by decide, by decide, by decide, by decide⟩

/-- Boundary checks of the two numeric coercions against the engines'
documented behavior: `1e3`, a space-padded `5`, and `0x10` are numeric for
JavaScript (so `isNaN` is false and the controller delegates them), and
`Infinity` coerces to an infinity; SQLite's affinity conversion accepts the
exponent form but not the hex form, so the delete route removes row 1000
for the id `1e3` while the id `0x10` matches no row — not even id 16 —
and reports not-found. -/
theorem jsCoercion_affinity_boundary :
    jsToNumber ['1', 'e', '3'] = JsNumber.finite { num := 1000, scale := 0 } ∧
      jsToNumber [' ', '5'] = JsNumber.finite { num := 5, scale := 0 } ∧
      jsToNumber ['0', 'x', '1', '0'] = JsNumber.finite { num := 16, scale := 0 } ∧
      jsToNumber infinityLit = JsNumber.posInf ∧
      deleteSnippetController ['1', 'e', '3'] exampleAffinityDB =
        ({ exampleAffinityDB with
            snippets := [{ id := 16, title := ['u'], code := ['d'], language := ['m'],
                           created_at := 1 }] }, DeleteResponse.ok) ∧
      deleteSnippetController ['0', 'x', '1', '0'] exampleAffinityDB =
        (exampleAffinityDB, DeleteResponse.notFound) := by
  exact ⟨by decide, by decide, by decide, by decide, by decide, by decide⟩

/-- Claim C9: the insert-or-reuse step (`INSERT OR IGNORE` followed by the
name lookup) is idempotent — for a non-empty name, running it twice yields
the same identifier both times, the second run leaves the store untouched
(the duplicate insert is a no-op, never an error), and exactly one row with
that name exists afterwards. -/
theorem c9_tag_insert_idempotent (db : DB) (name : Str) (hname : name ≠ [])
    (hnames : (db.tags.map (fun t => t.name)).Nodup) :
    (∃ i, (insertTagAndSelect db name).2 = some i ∧
        (insertTagAndSelect (insertTagAndSelect db name).1 name).2 = some i) ∧
      (insertTagAndSelect (insertTagAndSelect db name).1 name).1 =
        (insertTagAndSelect db name).1 ∧
      ((insertTagAndSelect (insertTagAndSelect db name).1 name).1.tags.filter
          (fun t => t.name == name)).length = 1 := by
  have _ := hname
  have key : ∀ d : DB, d.tags.any (fun t => t.name == name) = true →
      sqlInsertOrIgnoreTag d name = d := by
    intro d hd
    unfold sqlInsertOrIgnoreTag
    rw [if_pos hd]
  have hany1 : (sqlInsertOrIgnoreTag db name).tags.any (fun t => t.name == name) = true := by
    unfold sqlInsertOrIgnoreTag
    by_cases h0 : db.tags.any (fun t => t.name == name) = true
    · rw [if_pos h0]
      exact h0
    · rw [if_neg h0]
      rw [List.any_eq_true]
      exact ⟨{ id := db.nextTagId, name := name },
        List.mem_append_right _ (List.mem_singleton.2 rfl), beq_iff_eq.2 rfl⟩
  have hnames1 : ((sqlInsertOrIgnoreTag db name).tags.map (fun t => t.name)).Nodup := by
    unfold sqlInsertOrIgnoreTag
    by_cases h0 : db.tags.any (fun t => t.name == name) = true
    · rw [if_pos h0]
      exact hnames
    · rw [if_neg h0]
      rw [List.map_append]
      refine List.Nodup.append hnames (by simp) ?_
      intro a ha hb
      rcases List.mem_map.1 ha with ⟨t, ht, rfl⟩
      rw [List.map_singleton, List.mem_singleton] at hb
      apply h0
      rw [List.any_eq_true]
      exact ⟨t, ht, beq_iff_eq.2 hb⟩
  have hfind : ∃ t, (sqlInsertOrIgnoreTag db name).tags.find? (fun t => t.name == name) =
      some t := by
    rw [List.any_eq_true] at hany1
    rcases hany1 with ⟨t0, ht0, hp⟩
    cases hf : (sqlInsertOrIgnoreTag db name).tags.find? (fun t => t.name == name) with
    | none =>
      rw [List.find?_eq_none] at hf
      exact absurd hp (hf t0 ht0)
    | some t => exact ⟨t, rfl⟩
  rcases hfind with ⟨t, hfind⟩
  refine ⟨⟨t.id, ?_, ?_⟩, ?_, ?_⟩
  · show sqlSelectTagId (sqlInsertOrIgnoreTag db name) name = some t.id
    unfold sqlSelectTagId
    rw [hfind]
    rfl
  · show sqlSelectTagId
        (sqlInsertOrIgnoreTag (sqlInsertOrIgnoreTag db name) name) name = some t.id
    rw [key _ hany1]
    unfold sqlSelectTagId
    rw [hfind]
    rfl
  · show sqlInsertOrIgnoreTag (sqlInsertOrIgnoreTag db name) name = sqlInsertOrIgnoreTag db name
    exact key _ hany1
  · show ((sqlInsertOrIgnoreTag (sqlInsertOrIgnoreTag db name) name).tags.filter
        (fun t => t.name == name)).length = 1
    rw [key _ hany1]
    rw [List.any_eq_true] at hany1
    rcases hany1 with ⟨t0, ht0, hp⟩
    exact filter_key_length_one (fun t => t.name) name (sqlInsertOrIgnoreTag db name).tags
      hnames1 ⟨t0, ht0, beq_iff_eq.1 hp⟩

/-- Witness for C9: inserting the tag `x` twice into the empty database. -/
theorem c9_tag_insert_idempotent_witness :
    (∃ i, (insertTagAndSelect emptyDB ['x']).2 = some i ∧
        (insertTagAndSelect (insertTagAndSelect emptyDB ['x']).1 ['x']).2 = some i) ∧
      (insertTagAndSelect (insertTagAndSelect emptyDB ['x']).1 ['x']).1 =
        (insertTagAndSelect emptyDB ['x']).1 ∧
      ((insertTagAndSelect (insertTagAndSelect emptyDB ['x']).1 ['x']).1.tags.filter
          (fun t => t.name == ['x'])).length = 1 :=
  c9_tag_insert_idempotent emptyDB ['x'] (by decide) (by decide)

/-- Claim C10: a snippet with zero association rows is listed with a `tags`
field equal to the empty array — the NULL aggregate is mapped to `[]` before
the record is returned. -/
theorem c10_zero_tags_empty_array (db : DB) (s : SnippetRow) (hs : s ∈ db.snippets)
    (hnone : ∀ l ∈ db.snippet_tags, l.snippet_id ≠ s.id) :
    ∃ r ∈ getAllSnippets [] db, r.id = s.id ∧ r.tags = [] := by
  have hfilter : db.snippet_tags.filter (fun l => l.snippet_id == s.id) = [] :=
    List.filter_eq_nil_iff.2 (fun l hl hb => hnone l hl (beq_iff_eq.1 hb))
  have hjoin : joinTagNames db s.id = [none] := by
    unfold joinTagNames
    rw [hfilter]
    rfl
  refine ⟨{ id := s.id, title := s.title, code := s.code, language := s.language,
            created_at := s.created_at,
            tags := jsTagsField (groupConcatNames (joinTagNames db s.id)) }, ?_, rfl, ?_⟩
  · show _ ∈ getAllSnippets [] db
    unfold getAllSnippets
    rw [mem_orderByCreatedDesc]
    exact List.mem_filterMap.2 ⟨s, hs, snippetQueryRow_nil db s⟩
  · rw [hjoin]
    rfl

/-- Witness for C10: the untagged snippet of the wildcard database is listed
with an empty tag array. -/
theorem c10_zero_tags_empty_array_witness :
    ∃ r ∈ getAllSnippets [] exampleWildcardDB, r.id = 1 ∧ r.tags = [] :=
  c10_zero_tags_empty_array exampleWildcardDB
    { id := 1, title := ['a', 'b', 'c'], code := ['d'], language := ['e'], created_at := 0 }
    (by decide) (by decide)

/-- Counterexample to claim C3: searching `python` in a database whose only
snippet is tagged `python` and `js` (title, code and language do not match)
returns the snippet with the tag list `["python"]` only — the complete tag
set of its live association rows is `["python", "js"]`, so the reported list
is not the complete set. -/
theorem c3_tag_only_match_counterexample :
    (getAllSnippets strPython exampleTagOnlyDB).map (fun r => r.tags) = [[strPython]] ∧
      liveTagNames exampleTagOnlyDB 1 = [strPython, ['j', 's']] ∧
      ([[strPython]] : List (List Str)) ≠ [[strPython, ['j', 's']]] := by
  exact ⟨by decide, by decide, by decide⟩

/-- Claim C3 as amended: each qualifying snippet appears exactly once in the
filtered listing (its id is never repeated), but the reported tag list of a
qualifying snippet consists of the tags on exactly those joined rows that
pass the search filter — so when a snippet qualifies only through a matching
tag, only the matching tags are reported, not its complete tag set. -/
theorem c3_single_row_amended (q : Str) (db : DB)
    (hnd : (db.snippets.map (fun s => s.id)).Nodup) :
    ((getAllSnippets q db).map (fun r => r.id)).Nodup ∧
      (q.isEmpty = false → ∀ s ∈ db.snippets, ∀ r ∈ getAllSnippets q db, r.id = s.id →
        r.tags = jsTagsField (groupConcatNames
          ((joinTagNames db s.id).filter (rowPasses q s)))) := by
  constructor
  · have hsub : List.Sublist
        ((db.snippets.filterMap (snippetQueryRow db q)).map (fun r => r.id))
        (db.snippets.map (fun s => s.id)) :=
      map_filterMap_sublist _ _ _ (fun a b hab => snippetQueryRow_id db q a b hab) db.snippets
    have hperm : List.Perm ((getAllSnippets q db).map (fun r => r.id))
        ((db.snippets.filterMap (snippetQueryRow db q)).map (fun r => r.id)) :=
      (perm_orderByCreatedDesc _).map _
    exact hperm.nodup_iff.2 (hnd.sublist hsub)
  · intro hq s hs r hr hid
    unfold getAllSnippets at hr
    rw [mem_orderByCreatedDesc] at hr
    rcases List.mem_filterMap.1 hr with ⟨s2, hs2, hf⟩
    have hid2 : s2.id = s.id := by
      rw [← snippetQueryRow_id db q s2 r hf]
      exact hid
    have hss : s2 = s := List.inj_on_of_nodup_map hnd hs2 hs hid2
    subst hss
    unfold snippetQueryRow at hf
    rw [hq] at hf
    simp only [Bool.false_eq_true, if_false] at hf
    by_cases he : ((joinTagNames db s2.id).filter (rowPasses q s2)).isEmpty
    · rw [if_pos he] at hf
      exact Option.noConfusion hf
    · rw [if_neg he] at hf
      injection hf with hf2
      rw [← hf2]

/-- Witness for C3 (amended): the filtered listing of the tag-only database
has pairwise distinct ids. -/
theorem c3_single_row_amended_witness :
    ((getAllSnippets strPython exampleTagOnlyDB).map (fun r => r.id)).Nodup :=
  (c3_single_row_amended strPython exampleTagOnlyDB (by decide)).1

theorem filterMap_always_some {α β : Type} (f : α → Option β) (g : α → β)
    (h : ∀ a, f a = some (g a)) (l : List α) : l.filterMap f = l.map g := by
  induction l with
  | nil => rfl
  | cons a as ih =>
    rw [List.map_cons, List.filterMap_cons, h a, ih]

/-- Counterexample to claim C4: the search text `_` is passed to `LIKE`
unescaped, where it is a single-character wildcard. The snippet with title
`abc`, code `d`, language `e` and no tags is returned for the search `_`
although `_` appears as a substring of none of its fields and it has no tag
— so the listing is not "exactly the snippets where the text appears as a
case-insensitive substring". -/
theorem c4_wildcard_counterexample :
    (getAllSnippets ['_'] exampleWildcardDB).map (fun r => r.id) = [1] ∧
      containsCI ['a', 'b', 'c'] ['_'] = false ∧
      containsCI ['d'] ['_'] = false ∧
      containsCI ['e'] ['_'] = false ∧
      exampleWildcardDB.snippet_tags = [] := by
  exact ⟨by decide, by decide, by decide, by decide, by decide⟩

/-- Claim C4 as amended: for a non-empty search text free of the `LIKE`
wildcards `%` and `_`, the filtered listing contains exactly the snippets
where the text appears as a case-insensitive substring of the title, the
code, the language, or the name of some associated tag (the tag branch alone
suffices, and an untagged snippet appears exactly when a field matches);
texts containing `%` or `_` are interpreted as wildcard patterns instead. -/
theorem c4_search_or_semantics_amended (db : DB) (q : Str) (hq : q ≠ [])
    (hwf : wildcardFree q = true) (hdb : WellFormedDB db) :
    (∀ s ∈ db.snippets,
        ((∃ r ∈ getAllSnippets q db, r.id = s.id) ↔ specSearchMatches db q s)) ∧
      (∀ r ∈ getAllSnippets q db, ∃ s ∈ db.snippets, r.id = s.id) := by
  rcases hdb with ⟨hsid, htid, _, _, _, _⟩
  have hqe : q.isEmpty = false := by
    rw [← Bool.not_eq_true, List.isEmpty_iff]
    exact hq
  have hlp : ∀ s : Str, likeMatch (likeParam q) s = containsCI s q :=
    fun s => likeMatch_likeParam q s hwf
  constructor
  · intro s hs
    have hmem : (∃ r ∈ getAllSnippets q db, r.id = s.id) ↔
        ∃ r ∈ db.snippets.filterMap (snippetQueryRow db q), r.id = s.id := by
      unfold getAllSnippets
      constructor
      · rintro ⟨r, hr, hrid⟩
        exact ⟨r, (mem_orderByCreatedDesc r _).1 hr, hrid⟩
      · rintro ⟨r, hr, hrid⟩
        exact ⟨r, (mem_orderByCreatedDesc r _).2 hr, hrid⟩
    rw [hmem, exists_record_iff_isSome db q hsid s hs,
      snippetQueryRow_isSome_iff db q s hqe, joinRow_passes_iff db q s htid]
    unfold specSearchMatches fieldLike
    simp only [hlp, Bool.or_eq_true]
    tauto
  · intro r hr
    unfold getAllSnippets at hr
    rw [mem_orderByCreatedDesc] at hr
    rcases List.mem_filterMap.1 hr with ⟨s, hs, hf⟩
    exact ⟨s, hs, snippetQueryRow_id db q s r hf⟩

/-- Witness for C4 (amended): searching `python` in the tag-only database
finds snippet 1 through its tag. -/
theorem c4_search_or_semantics_amended_witness :
    ∃ r ∈ getAllSnippets strPython exampleTagOnlyDB, r.id = 1 :=
  ((c4_search_or_semantics_amended exampleTagOnlyDB strPython (by decide) (by decide)
      (by unfold WellFormedDB; decide)).1
    { id := 1, title := ['a'], code := ['b'], language := ['c'], created_at := 0 }
    (by decide)).mpr (by unfold specSearchMatches; decide)

theorem base_tags_eq_live (db : DB) (sid : Nat)
    (htid : (db.tags.map (fun t => t.id)).Nodup)
    (hnames : (db.tags.map (fun t => t.name)).Nodup)
    (hjnd : db.snippet_tags.Nodup)
    (hres : ∀ l ∈ db.snippet_tags, ∃ t ∈ db.tags, t.id = l.tag_id)
    (hclean : ∀ t ∈ db.tags, (',' ∉ t.name) ∧ t.name ≠ []) :
    jsTagsField (groupConcatNames (joinTagNames db sid)) = liveTagNames db sid ∧
      (liveTagNames db sid).Nodup := by
  have hlive : liveTagNames db sid =
      (db.snippet_tags.filter (fun l => l.snippet_id == sid)).filterMap
        (fun l => (db.tags.find? (fun t => t.id == l.tag_id)).map (fun t => t.name)) := rfl
  by_cases hL : (db.snippet_tags.filter (fun l => l.snippet_id == sid)).isEmpty = true
  · have hLnil : db.snippet_tags.filter (fun l => l.snippet_id == sid) = [] :=
      List.isEmpty_iff.1 hL
    have hjoin : joinTagNames db sid = [none] := by
      unfold joinTagNames
      rw [hLnil]
      rfl
    rw [hjoin, hlive, hLnil]
    exact ⟨rfl, by simp⟩
  · have hLne : db.snippet_tags.filter (fun l => l.snippet_id == sid) ≠ [] := by
      intro e
      exact hL (by rw [e]; rfl)
    have hjoin : joinTagNames db sid =
        (db.snippet_tags.filter (fun l => l.snippet_id == sid)).map
          (fun l => (db.tags.find? (fun t => t.id == l.tag_id)).map (fun t => t.name)) := by
      unfold joinTagNames
      rw [if_neg hL]
    have hall : ∀ l ∈ db.snippet_tags.filter (fun l => l.snippet_id == sid),
        ∃ t, db.tags.find? (fun t2 => t2.id == l.tag_id) = some t := by
      intro l hl
      rcases hres l (List.mem_filter.1 hl).1 with ⟨t, htmem, htideq⟩
      exact ⟨t, (find?_beq_eq_some_iff (fun t2 => t2.id) l.tag_id db.tags htid t).2
        ⟨htmem, htideq⟩⟩
    have hpresent : (joinTagNames db sid).filterMap id = liveTagNames db sid := by
      rw [hjoin, hlive, List.filterMap_map]
      rfl
    have hlivene : liveTagNames db sid ≠ [] := by
      rcases List.exists_mem_of_ne_nil _ hLne with ⟨l0, hl0⟩
      rcases hall l0 hl0 with ⟨t0, hf0⟩
      intro hemp
      have hmem0 : t0.name ∈ liveTagNames db sid := by
        rw [hlive]
        exact List.mem_filterMap.2 ⟨l0, hl0, by rw [hf0]; rfl⟩
      rw [hemp] at hmem0
      exact absurd hmem0 (List.not_mem_nil _)
    have hmembers : ∀ n ∈ liveTagNames db sid, (',' ∉ n) ∧ n ≠ [] := by
      intro n hn
      rw [hlive] at hn
      rcases List.mem_filterMap.1 hn with ⟨l, hl, hfl⟩
      rcases Option.map_eq_some'.1 hfl with ⟨t, hft, rfl⟩
      exact hclean t (List.mem_of_find?_eq_some hft)
    constructor
    · unfold groupConcatNames
      rw [hpresent]
      have hlne2 : (liveTagNames db sid).isEmpty = false := by
        rw [← Bool.not_eq_true, List.isEmpty_iff]
        exact hlivene
      show jsTagsField
          (if (liveTagNames db sid).isEmpty = true then none
           else some (joinComma (liveTagNames db sid))) = liveTagNames db sid
      rw [hlne2]
      simp only [Bool.false_eq_true, if_false]
      have hjne2 : (joinComma (liveTagNames db sid)).isEmpty = false := by
        rw [← Bool.not_eq_true, List.isEmpty_iff]
        exact joinComma_ne_nil _ hlivene (fun n hn => (hmembers n hn).2)
      unfold jsTagsField
      show (if (joinComma (liveTagNames db sid)).isEmpty = true then []
            else splitComma (joinComma (liveTagNames db sid))) = liveTagNames db sid
      rw [hjne2]
      simp only [Bool.false_eq_true, if_false]
      exact splitComma_joinComma _ (fun n hn => (hmembers n hn).1) hlivene
    · rw [hlive]
      exact nodup_resolved_names db.tags htid hnames _
        (nodup_tagIds_of_same_snippet sid _ (hjnd.filter _)
          (fun l hl => beq_iff_eq.1 (List.mem_filter.1 hl).2))

/-- Counterexample to claim C7: a snippet whose single live tag is named
`a,b` is listed with the tag list `["a", "b"]` — the `GROUP_CONCAT` string
is split on commas, so the reported list does not reflect its live
association rows (whose only name is `a,b`). -/
theorem c7_comma_tag_counterexample :
    (getAllSnippets [] exampleCommaDB).map (fun r => r.tags) = [[['a'], ['b']]] ∧
      liveTagNames exampleCommaDB 1 = [['a', ',', 'b']] ∧
      ([[['a'], ['b']]] : List (List Str)) ≠ [[['a', ',', 'b']]] := by
  exact ⟨by decide, by decide, by decide⟩

/-- Claim C7 as amended: with no search text the listing contains every
stored snippet exactly once, ordered by descending creation time, and —
provided every tag name is non-empty and comma-free, since the reported list
is the comma-split of the `GROUP_CONCAT` string — each snippet's reported
tag list equals exactly the names on its live association rows at read time,
with no duplicates. -/
theorem c7_unfiltered_listing_amended (db : DB) (hdb : WellFormedDB db)
    (hclean : TagNamesClean db) :
    List.Perm ((getAllSnippets [] db).map (fun r => r.id))
        (db.snippets.map (fun s => s.id)) ∧
      (getAllSnippets [] db).Pairwise (fun a b => b.created_at ≤ a.created_at) ∧
      (∀ r ∈ getAllSnippets [] db, ∀ s ∈ db.snippets, r.id = s.id →
        r.tags = liveTagNames db s.id ∧ r.tags.Nodup) := by
  rcases hdb with ⟨hsid, htid, hnames, hjnd, hres, _⟩
  have hfm : db.snippets.filterMap (snippetQueryRow db []) =
      db.snippets.map (fun s =>
        { id := s.id, title := s.title, code := s.code, language := s.language,
          created_at := s.created_at,
          tags := jsTagsField (groupConcatNames (joinTagNames db s.id)) }) :=
    filterMap_always_some _ _ (fun s => snippetQueryRow_nil db s) db.snippets
  refine ⟨?_, ?_, ?_⟩
  · have hperm1 : List.Perm ((getAllSnippets [] db).map (fun r => r.id))
        ((db.snippets.filterMap (snippetQueryRow db [])).map (fun r => r.id)) :=
      (perm_orderByCreatedDesc _).map _
    rw [hfm] at hperm1
    have hcompose :
        (db.snippets.map (fun s =>
            ({ id := s.id, title := s.title, code := s.code, language := s.language,
               created_at := s.created_at,
               tags := jsTagsField (groupConcatNames (joinTagNames db s.id)) } :
              SnippetRecord))).map (fun r => r.id) =
          db.snippets.map (fun s => s.id) := by
      rw [List.map_map]
      rfl
    rw [hcompose] at hperm1
    exact hperm1
  · exact sorted_orderByCreatedDesc _
  · intro r hr s hs hid
    unfold getAllSnippets at hr
    rw [mem_orderByCreatedDesc] at hr
    rcases List.mem_filterMap.1 hr with ⟨s2, hs2, hf⟩
    rw [snippetQueryRow_nil db s2] at hf
    injection hf with hf2
    have hid2 : s2.id = s.id := by
      rw [← hf2] at hid
      exact hid
    have hss : s2 = s := List.inj_on_of_nodup_map hsid hs2 hs hid2
    subst hss
    have hbase := base_tags_eq_live db s2.id htid hnames hjnd hres hclean
    have htags : r.tags = jsTagsField (groupConcatNames (joinTagNames db s2.id)) := by
      rw [← hf2]
    exact ⟨htags.trans hbase.1, by rw [htags, hbase.1]; exact hbase.2⟩

/-- Witness for C7 (amended): the unfiltered listing of the tag-only
database (whose tag names are clean) lists both of snippet 1's tags. -/
theorem c7_unfiltered_listing_amended_witness :
    List.Perm ((getAllSnippets [] exampleTagOnlyDB).map (fun r => r.id))
      (exampleTagOnlyDB.snippets.map (fun s => s.id)) :=
  (c7_unfiltered_listing_amended exampleTagOnlyDB (by unfold WellFormedDB; decide)
    (by unfold TagNamesClean; decide)).1

end CSE499
